import Mathlib

/-!
Verification of the subscription and fan-out engine of the AT_Proto_PubSub broker
(`internal/subscription/manager.go`).

Strings are embedded as lists of characters (`Str`); for the ASCII data handled by
the broker this coincides with Go's byte-wise string operations (UTF-8 is
self-synchronizing, so byte-wise prefix/substring tests on valid UTF-8 agree with
character-wise ones).  `strings.ToLower` is modelled by `Char.toLower`, the ASCII
case fold, which the spec explicitly allows.  A record attached to an operation
(`op.Record`, an `interface{}` that the code marshals to JSON and re-parses into
`RecordContent`) is embedded as `ATRecord`: `null` for a nil record, `invalid` for
a value whose JSON round-trip into `RecordContent` fails, and `content` carrying
the three text fields (absent fields decode to the empty string).
-/

abbrev Str := List Char

/-- Go `strings.HasPrefix(s, pre)` : `isPrefixL pre s` is true when `pre` is a
prefix of `s` (byte-wise in Go, character-wise here). -/
def isPrefixL : Str → Str → Bool
  | [], _ => true
  | _ :: _, [] => false
  | p :: ps, c :: cs => p = c && isPrefixL ps cs

/-- Go `strings.Contains(s, pat)` : substring containment. -/
def containsL : Str → Str → Bool
  | [], pat => pat.isEmpty
  | c :: rest, pat => isPrefixL pat (c :: rest) || containsL rest pat

/-- Go `strings.ToLower` (ASCII case fold, which the spec allows). -/
def toLowerStr (s : Str) : Str := s.map Char.toLower

/-- The white space characters Go's `strings.TrimSpace` removes (ASCII part of
`unicode.IsSpace`). -/
def isSpaceChar (c : Char) : Bool :=
  c = ' ' || c = '\t' || c = '\n' || c = '\x0b' || c = '\x0c' || c = '\r'

def trimLeftStr : Str → Str
  | [] => []
  | c :: rest => if isSpaceChar c then trimLeftStr rest else c :: rest

/-- Go `strings.TrimSpace`. -/
def trimStr (s : Str) : Str := ((trimLeftStr ((trimLeftStr s.reverse)).reverse).reverse).reverse

/-- Go `strings.Split(s, ",")`. -/
def splitOnComma : Str → List Str
  | [] => [[]]
  | c :: rest =>
    if c = ',' then [] :: splitOnComma rest
    else match splitOnComma rest with
      | [] => [[c]]
      | piece :: pieces => (c :: piece) :: pieces

/-- The filter criteria (`models.FilterOptions`); `pathPfx` embeds the Go field
`PathPrefix`. -/
structure FilterOptions where
  repository : Str
  pathPfx : Str
  keyword : Str
deriving DecidableEq

/-- An operation's record value after the JSON round-trip the code performs. -/
inductive ATRecord where
  | null : ATRecord
  | invalid : ATRecord
  | content : Str → Str → Str → ATRecord
deriving DecidableEq

/-- `models.ATOperation`. -/
structure ATOperation where
  action : Str
  path : Str
  collection : Str
  rkey : Str
  record : ATRecord
deriving DecidableEq

/-- `models.ATEvent`. -/
structure ATEvent where
  event : Str
  did : Str
  time : Str
  kind : Str
  ops : List ATOperation
deriving DecidableEq

/-- The text-field selection of `recordContainsKeywords`: the first non-empty of
`record.text`, `record.message`, `record.content`; empty for nil records and for
values whose JSON round-trip fails. -/
def extractText : ATRecord → Str
  | .null => []
  | .invalid => []
  | .content t m c => if t ≠ [] then t else if m ≠ [] then m else c

/-- `Manager.recordContainsKeywords` (manager.go:1097-1139); the text-field
selection of lines 1114-1121 is `extractText`. -/
def recordContainsKeywords (record : ATRecord) (keywords : Str) : Bool :=
  if record = ATRecord.null ∨ keywords = [] then false
  else
    match record with
    | .null => false
    | .invalid => false
    | .content t msg cont =>
      if extractText (ATRecord.content t msg cont) = [] then false
      else
        (splitOnComma keywords).any fun kw =>
          trimStr kw ≠ [] &&
            containsL (toLowerStr (extractText (ATRecord.content t msg cont)))
              (toLowerStr (trimStr kw))

/-- `Manager.matchesFilter` (manager.go:1052-1095). -/
def matchesFilter (event : ATEvent) (options : FilterOptions) : Bool :=
  if options.repository = [] ∧ options.pathPfx = [] ∧ options.keyword = [] then false
  else if options.repository ≠ [] ∧ event.did ≠ options.repository then false
  else if options.pathPfx ≠ [] ∧
      (event.ops.any fun op => isPrefixL options.pathPfx op.path) = false then false
  else if options.keyword ≠ [] ∧
      (event.ops.any fun op => recordContainsKeywords op.record options.keyword) = false then
    false
  else true

/-- The comma-separated keyword list after per-term trimming, with empty terms
discarded. -/
def keywordTerms (keywords : Str) : List Str :=
  ((splitOnComma keywords).map trimStr).filter (fun t => decide (t ≠ []))

example : splitOnComma "cats, dogs".toList = ["cats".toList, " dogs".toList] := by decide

example : keywordTerms "cats, dogs ,birds".toList
    = ["cats".toList, "dogs".toList, "birds".toList] := by decide

example : containsL (toLowerStr "my DOGS are great".toList) "dogs".toList = true := by decide

example : containsL (toLowerStr "my DOG is great".toList) "dogs".toList = false := by decide

example :
    matchesFilter
      ⟨"commit".toList, "did:plc:abc".toList, [], "commit".toList,
        [⟨"create".toList, "app.bsky.feed.post/1".toList, [], [],
          .content "this is a test".toList [] []⟩]⟩
      ⟨"did:plc:abc".toList, [], "test".toList⟩ = true := by decide

example :
    matchesFilter
      ⟨[], "did:plc:abc".toList, [], [],
        [⟨"create".toList, "app.bsky.feed.post/2".toList, [], [],
          .content "bar".toList [] []⟩]⟩
      ⟨[], "app.bsky.feed.post".toList, "foo".toList⟩ = false := by decide

lemma mem_keywordTerms_ne_nil {t kw : Str} (h : t ∈ keywordTerms kw) : t ≠ [] := by
  simp only [keywordTerms, List.mem_filter, decide_eq_true_eq] at h
  exact h.2

lemma no_term_hits_nil (kw : Str) :
    ¬ ∃ t ∈ keywordTerms kw, containsL [] (toLowerStr t) = true := by
  rintro ⟨t, ht, hc⟩
  have hne : t ≠ [] := mem_keywordTerms_ne_nil ht
  have hempty : (toLowerStr t).isEmpty = true := hc
  rw [List.isEmpty_iff] at hempty
  simp only [toLowerStr, List.map_eq_nil_iff] at hempty
  exact hne hempty

lemma terms_hit_iff (text kw : Str) :
    ((splitOnComma kw).any fun kw0 =>
        decide (trimStr kw0 ≠ []) && containsL (toLowerStr text) (toLowerStr (trimStr kw0)))
      = true
    ↔ ∃ t ∈ keywordTerms kw, containsL (toLowerStr text) (toLowerStr t) = true := by
  simp only [keywordTerms, List.any_eq_true, List.mem_filter, List.mem_map,
    Bool.and_eq_true, decide_eq_true_eq]
  constructor
  · rintro ⟨kw0, hmem, hne, hc⟩
    exact ⟨trimStr kw0, ⟨⟨kw0, hmem, rfl⟩, hne⟩, hc⟩
  · rintro ⟨t, ⟨⟨kw0, hmem, rfl⟩, hne⟩, hc⟩
    exact ⟨kw0, hmem, hne, hc⟩

theorem recordContainsKeywords_iff (r : ATRecord) (kw : Str) :
    recordContainsKeywords r kw = true ↔
      (kw ≠ [] ∧ ∃ t ∈ keywordTerms kw,
        containsL (toLowerStr (extractText r)) (toLowerStr t) = true) := by
  by_cases hkw : kw = []
  · subst hkw
    simp [recordContainsKeywords]
  cases r with
  | null =>
    simp only [recordContainsKeywords]
    rw [if_pos (Or.inl trivial)]
    refine ⟨fun h => absurd h Bool.false_ne_true, fun hR => ?_⟩
    exact absurd hR.2 (no_term_hits_nil kw)
  | invalid =>
    simp only [recordContainsKeywords]
    rw [if_neg (by simp [hkw])]
    refine ⟨fun h => absurd h Bool.false_ne_true, fun hR => ?_⟩
    exact absurd hR.2 (no_term_hits_nil kw)
  | content t m c =>
    simp only [recordContainsKeywords]
    rw [if_neg (by simp [hkw])]
    by_cases htxt : extractText (ATRecord.content t m c) = []
    · rw [if_pos htxt, htxt]
      refine ⟨fun h => absurd h Bool.false_ne_true, fun hR => ?_⟩
      exact absurd hR.2 (no_term_hits_nil kw)
    · rw [if_neg htxt, terms_hit_iff]
      simp [hkw]

lemma keyword_any_iff (e : ATEvent) (kw : Str) (hkw : kw ≠ []) :
    (e.ops.any fun op => recordContainsKeywords op.record kw) = true ↔
      ∃ op ∈ e.ops, ∃ t ∈ keywordTerms kw,
        containsL (toLowerStr (extractText op.record)) (toLowerStr t) = true := by
  simp [List.any_eq_true, recordContainsKeywords_iff, hkw]

/-- C1: the matcher returns true iff the criteria are not all empty, the
repository gate passes (empty or equal to the event's did), the path gate passes
(empty or some op's path starts with the prefix), and the keyword gate passes
(empty or some op's record has extractable text containing, case-insensitively
as a substring, at least one trimmed non-empty comma-separated keyword term). -/
theorem matchesFilter_spec (e : ATEvent) (o : FilterOptions) :
    matchesFilter e o = true ↔
      (¬ (o.repository = [] ∧ o.pathPfx = [] ∧ o.keyword = []) ∧
       (o.repository = [] ∨ e.did = o.repository) ∧
       (o.pathPfx = [] ∨ ∃ op ∈ e.ops, isPrefixL o.pathPfx op.path = true) ∧
       (o.keyword = [] ∨ ∃ op ∈ e.ops, ∃ t ∈ keywordTerms o.keyword,
          containsL (toLowerStr (extractText op.record)) (toLowerStr t) = true)) := by
  unfold matchesFilter
  by_cases h1 : o.repository = [] ∧ o.pathPfx = [] ∧ o.keyword = []
  · simp [h1]
  rw [if_neg h1]
  by_cases h2 : o.repository ≠ [] ∧ e.did ≠ o.repository
  · rw [if_pos h2]
    refine ⟨fun h => absurd h Bool.false_ne_true, fun hR => ?_⟩
    exfalso
    rcases hR.2.1 with h | h
    · exact h2.1 h
    · exact h2.2 h
  rw [if_neg h2]
  by_cases h3 : o.pathPfx ≠ [] ∧ (e.ops.any fun op => isPrefixL o.pathPfx op.path) = false
  · rw [if_pos h3]
    refine ⟨fun h => absurd h Bool.false_ne_true, fun hR => ?_⟩
    exfalso
    rcases hR.2.2.1 with h | h
    · exact h3.1 h
    · have hany : (e.ops.any fun op => isPrefixL o.pathPfx op.path) = true :=
        List.any_eq_true.mpr h
      rw [h3.2] at hany
      exact Bool.false_ne_true hany
  rw [if_neg h3]
  by_cases h4 : o.keyword ≠ [] ∧
      (e.ops.any fun op => recordContainsKeywords op.record o.keyword) = false
  · rw [if_pos h4]
    refine ⟨fun h => absurd h Bool.false_ne_true, fun hR => ?_⟩
    exfalso
    rcases hR.2.2.2 with h | h
    · exact h4.1 h
    · have hany := (keyword_any_iff e o.keyword h4.1).mpr h
      rw [h4.2] at hany
      exact Bool.false_ne_true hany
  rw [if_neg h4]
  push_neg at h2 h3 h4
  refine ⟨fun _ => ⟨h1, ?_, ?_, ?_⟩, fun _ => rfl⟩
  · by_cases hr : o.repository = []
    · exact Or.inl hr
    · exact Or.inr (h2 hr)
  · by_cases hp : o.pathPfx = []
    · exact Or.inl hp
    · right
      have hany : (e.ops.any fun op => isPrefixL o.pathPfx op.path) = true := by
        have := h3 hp
        simpa using this
      exact List.any_eq_true.mp hany
  · by_cases hk : o.keyword = []
    · exact Or.inl hk
    · right
      have hany : (e.ops.any fun op => recordContainsKeywords op.record o.keyword) = true := by
        have := h4 hk
        simpa using this
      exact (keyword_any_iff e o.keyword hk).mp hany

/-- `countLetters` (manager.go:1329-1333): the Go regex `[a-zA-Z]` counts exactly
the ASCII letters, which is what `Char.isAlpha` recognises. -/
def countLetters (s : Str) : Nat := (s.filter (fun c => c.isAlpha)).length

/-- `validateFilterContent` (manager.go:1297-1327): `none` means the criteria
pass, `some msg` is the first validation error. -/
def validateFilterContent (options : FilterOptions) : Option Str :=
  if options.repository ≠ [] ∧ countLetters options.repository < 3 then
    some "Repository filter must contain at least 3 letters".toList
  else if options.pathPfx ≠ [] ∧ countLetters options.pathPfx < 3 then
    some "Path prefix filter must contain at least 3 letters".toList
  else if options.keyword ≠ [] ∧
      ((splitOnComma options.keyword).any fun kw =>
        trimStr kw ≠ [] && countLetters (trimStr kw) < 3) then
    some "Keyword must contain at least 3 letters".toList
  else none

/-- A live filter record (`Subscription` in manager.go); connections are peer
handles, embedded as natural numbers, and times are naturals in nanoseconds. -/
structure Subscription where
  filterKey : Str
  options : FilterOptions
  createdAt : Nat
  lastConnectionAt : Option Nat
  connections : List Nat
deriving DecidableEq

/-- The subscription registry (`Manager` in manager.go).  The Go map from key to
record is embedded as a list of records with pairwise distinct keys. -/
structure Manager where
  subscriptions : List Subscription
  maxConnections : Nat
  totalConnections : Int
deriving DecidableEq

/-- `NewManagerWithConfig` (and `NewManager` with the 1000 default). -/
def mkManager (maxConns : Nat) : Manager :=
  { subscriptions := [], maxConnections := maxConns, totalConnections := 0 }

/-- Go map lookup `m.subscriptions[filterKey]`. -/
def findSub (m : Manager) (key : Str) : Option Subscription :=
  m.subscriptions.find? (fun s => decide (s.filterKey = key))

/-- Go map store `m.subscriptions[filterKey] = sub` (overwrite semantics). -/
def putSub (l : List Subscription) (s : Subscription) : List Subscription :=
  (l.filter fun t => decide (t.filterKey ≠ s.filterKey)) ++ [s]

/-- In-place mutation of the record stored under `key` (the Go code mutates the
shared record through its pointer). -/
def updateSub (l : List Subscription) (key : Str) (s2 : Subscription) : List Subscription :=
  l.map fun t => if t.filterKey = key then s2 else t

/-- `Manager.CreateFilter` (manager.go:856-890); the randomly generated key is a
parameter.  Returns the key on success and the empty string on rejection. -/
def CreateFilter (m : Manager) (key : Str) (now : Nat) (options : FilterOptions) :
    Str × Manager :=
  if options.keyword = [] then ([], m)
  else if (validateFilterContent options).isSome then ([], m)
  else
    (key,
     { m with subscriptions := putSub m.subscriptions ⟨key, options, now, none, []⟩ })

/-- `models.FilterSubscription`, the read-only view returned by the lookups. -/
structure FilterSubscription where
  filterKey : Str
  options : FilterOptions
  createdAt : Nat
  connections : Nat
deriving DecidableEq

def subView (s : Subscription) : FilterSubscription :=
  { filterKey := s.filterKey, options := s.options, createdAt := s.createdAt
    connections := s.connections.length }

/-- `Manager.GetSubscription` (manager.go:892-911): `none` is the NotFound case. -/
def GetSubscription (m : Manager) (key : Str) : Option FilterSubscription :=
  (findSub m key).map subView

/-- `Manager.GetSubscriptions` (manager.go:913-930). -/
def GetSubscriptions (m : Manager) : List FilterSubscription :=
  m.subscriptions.map subView

/-- `ConnectionResult` (manager.go:932-937). -/
structure ConnectionResult where
  success : Bool
  errorMessage : Str
  errorCode : Str
deriving DecidableEq

/-- `Manager.AddConnectionWithResult` (manager.go:945-986). -/
def AddConnectionWithResult (m : Manager) (key : Str) (conn : Nat) (now : Nat) :
    ConnectionResult × Manager :=
  if (m.maxConnections : Int) ≤ m.totalConnections then
    ({ success := false, errorMessage := "Maximum connections limit reached".toList
       errorCode := "MAX_CONNECTIONS_REACHED".toList }, m)
  else
    match findSub m key with
    | none =>
      ({ success := false, errorMessage := "Invalid filter key".toList
         errorCode := "INVALID_FILTER_KEY".toList }, m)
    | some s =>
      ({ success := true, errorMessage := [], errorCode := [] },
       { m with
          subscriptions := updateSub m.subscriptions key
            { s with
                connections := if s.connections.contains conn then s.connections
                  else s.connections ++ [conn]
                lastConnectionAt := some now }
          totalConnections := m.totalConnections + 1 })

/-- `Manager.RemoveConnection` (manager.go:988-1019). -/
def RemoveConnection (m : Manager) (key : Str) (conn : Nat) : Manager :=
  match findSub m key with
  | none => m
  | some s =>
    if s.connections.contains conn then
      if (s.connections.erase conn).length = 0 then
        { m with
            subscriptions := m.subscriptions.filter fun t => decide (t.filterKey ≠ key)
            totalConnections := m.totalConnections - 1 }
      else
        { m with
            subscriptions := updateSub m.subscriptions key
              { s with connections := s.connections.erase conn }
            totalConnections := m.totalConnections - 1 }
    else m

example :
    (CreateFilter (mkManager 1000) "cafe".toList 0 ⟨[], [], "test".toList⟩).1
      = "cafe".toList := by decide

example :
    (CreateFilter (mkManager 1000) "cafe".toList 0 ⟨[], [], "ab".toList⟩).1 = [] := by decide

example :
    (CreateFilter (mkManager 1000) "cafe".toList 0 ⟨[], [], " , ".toList⟩).1
      = "cafe".toList := by decide

lemma validateFilterContent_eq_none_iff (o : FilterOptions) :
    validateFilterContent o = none ↔
      ((o.repository ≠ [] → 3 ≤ countLetters o.repository) ∧
       (o.pathPfx ≠ [] → 3 ≤ countLetters o.pathPfx) ∧
       (∀ t ∈ splitOnComma o.keyword, trimStr t ≠ [] → 3 ≤ countLetters (trimStr t))) := by
  unfold validateFilterContent
  by_cases h1 : o.repository ≠ [] ∧ countLetters o.repository < 3
  · rw [if_pos h1]
    simp only [reduceCtorEq, false_iff, not_and]
    intro hrep
    exact absurd (hrep h1.1) (not_le.mpr h1.2)
  rw [if_neg h1]
  by_cases h2 : o.pathPfx ≠ [] ∧ countLetters o.pathPfx < 3
  · rw [if_pos h2]
    simp only [reduceCtorEq, false_iff, not_and]
    intro _ hp
    exact absurd (hp h2.1) (not_le.mpr h2.2)
  rw [if_neg h2]
  by_cases h3 : o.keyword ≠ [] ∧
      ((splitOnComma o.keyword).any fun kw =>
        trimStr kw ≠ [] && countLetters (trimStr kw) < 3) = true
  · rw [if_pos h3]
    simp only [reduceCtorEq, false_iff, not_and]
    intro _ _ hterms
    rcases List.any_eq_true.mp h3.2 with ⟨t, hmem, hbad⟩
    simp only [Bool.and_eq_true, decide_eq_true_eq] at hbad
    exact absurd (hterms t hmem hbad.1) (not_le.mpr hbad.2)
  · rw [if_neg h3]
    push_neg at h1 h2
    simp only [true_iff]
    refine ⟨h1, h2, ?_⟩
    intro t hmem htne
    by_cases hk : o.keyword = []
    · rw [hk] at hmem
      simp only [splitOnComma, List.mem_singleton] at hmem
      subst hmem
      exact absurd rfl htne
    · push_neg at h3
      have hany := h3 hk
      by_contra hlt
      push_neg at hlt
      exact hany (List.any_eq_true.mpr ⟨t, hmem, by simp [htne, hlt]⟩)

/-- C2 (amended): `CreateFilter` returns a key iff the keyword field is
non-empty, any non-empty repository and path-prefix field contains at least
three ASCII letters, and every keyword term that is non-empty after trimming
contains at least three ASCII letters (the keyword field as a whole is not
letter-counted, and empty terms are skipped). -/
theorem CreateFilter_returns_key_iff (m : Manager) (key : Str) (now : Nat)
    (o : FilterOptions) (hkey : key ≠ []) :
    (CreateFilter m key now o).1 ≠ [] ↔
      (o.keyword ≠ [] ∧
       (o.repository ≠ [] → 3 ≤ countLetters o.repository) ∧
       (o.pathPfx ≠ [] → 3 ≤ countLetters o.pathPfx) ∧
       (∀ t ∈ splitOnComma o.keyword, trimStr t ≠ [] → 3 ≤ countLetters (trimStr t))) := by
  unfold CreateFilter
  by_cases hk : o.keyword = []
  · rw [if_pos hk]
    simp [hk]
  rw [if_neg hk]
  by_cases hv : (validateFilterContent o).isSome
  · rw [if_pos hv]
    simp only [ne_eq, not_true_eq_false, false_iff, not_and]
    intro _ hrep hpfx
    intro hterms
    have : validateFilterContent o = none :=
      (validateFilterContent_eq_none_iff o).mpr ⟨hrep, hpfx, hterms⟩
    rw [this] at hv
    exact Bool.false_ne_true hv
  · rw [if_neg hv]
    have hnone : validateFilterContent o = none := Option.not_isSome_iff_eq_none.mp hv
    have hR := (validateFilterContent_eq_none_iff o).mp hnone
    simp only [ne_eq]
    constructor
    · intro _
      exact ⟨hk, hR.1, hR.2.1, hR.2.2⟩
    · intro _
      exact hkey

theorem CreateFilter_returns_key_iff_witness :
    (CreateFilter (mkManager 1000) "cafe".toList 0 ⟨[], [], "test".toList⟩).1 ≠ [] :=
  (CreateFilter_returns_key_iff (mkManager 1000) "cafe".toList 0 ⟨[], [], "test".toList⟩
    (by decide)).mpr (by decide)

/-- The validation invariant I-V1 in the spec's own words: the keyword field is
required; every non-empty field must contain at least three letters; each
individual keyword term, after trimming, must independently contain at least
three letters.  (Letters are counted with the code's ASCII notion; the spec's
"Unicode-letter code points" reading additionally diverges on non-ASCII input.) -/
def specIV1 (o : FilterOptions) : Prop :=
  o.keyword ≠ [] ∧
  (o.repository ≠ [] → 3 ≤ countLetters o.repository) ∧
  (o.pathPfx ≠ [] → 3 ≤ countLetters o.pathPfx) ∧
  (o.keyword ≠ [] → 3 ≤ countLetters o.keyword) ∧
  (∀ t ∈ splitOnComma o.keyword, 3 ≤ countLetters (trimStr t))

instance (o : FilterOptions) : Decidable (specIV1 o) := by
  unfold specIV1
  infer_instance

/-- C2 counterexample: for criteria with keyword `" , "` the code accepts (all
terms trim to empty and are skipped, and the keyword field as a whole is never
letter-counted) while I-V1 as the spec words it is violated, so "returns a key
iff I-V1" is false. -/
theorem CreateFilter_returns_key_iff_counterexample :
    ¬ (((CreateFilter (mkManager 1000) "deadbeef".toList 0
          ⟨[], [], " , ".toList⟩).1 ≠ []) ↔ specIV1 ⟨[], [], " , ".toList⟩) := by
  decide

/-- C10 (amended): whenever the code's validation fails (empty keyword, a
non-empty repository or path prefix with fewer than three ASCII letters, or a
keyword term that is non-empty after trimming with fewer than three ASCII
letters), `CreateFilter` returns the empty string and leaves the manager — its
filter table, its counters, every record — exactly unchanged. -/
theorem CreateFilter_reject_no_mutation (m : Manager) (key : Str) (now : Nat)
    (o : FilterOptions)
    (h : ¬ (o.keyword ≠ [] ∧
       (o.repository ≠ [] → 3 ≤ countLetters o.repository) ∧
       (o.pathPfx ≠ [] → 3 ≤ countLetters o.pathPfx) ∧
       (∀ t ∈ splitOnComma o.keyword, trimStr t ≠ [] → 3 ≤ countLetters (trimStr t)))) :
    CreateFilter m key now o = ([], m) := by
  unfold CreateFilter
  by_cases hk : o.keyword = []
  · rw [if_pos hk]
  rw [if_neg hk]
  by_cases hv : (validateFilterContent o).isSome
  · rw [if_pos hv]
  · exfalso
    have hnone : validateFilterContent o = none := Option.not_isSome_iff_eq_none.mp hv
    have hR := (validateFilterContent_eq_none_iff o).mp hnone
    exact h ⟨hk, hR.1, hR.2.1, hR.2.2⟩

theorem CreateFilter_reject_no_mutation_witness :
    CreateFilter (mkManager 5) "cafe".toList 3 ⟨[], [], "ab".toList⟩ = ([], mkManager 5) :=
  CreateFilter_reject_no_mutation (mkManager 5) "cafe".toList 3 ⟨[], [], "ab".toList⟩
    (by decide)

/-- C10 counterexample: criteria with keyword `" ,"` violate I-V1 as the spec
words it, yet `CreateFilter` returns a key and mutates the registry. -/
theorem CreateFilter_atomicity_counterexample :
    ¬ specIV1 ⟨[], [], " ,".toList⟩ ∧
    (CreateFilter (mkManager 1000) "feed".toList 0 ⟨[], [], " ,".toList⟩).1
      = "feed".toList ∧
    (CreateFilter (mkManager 1000) "feed".toList 0 ⟨[], [], " ,".toList⟩).2
      ≠ mkManager 1000 := by
  decide

/-- One subscription's pass of `broadcastToSubscription` (manager.go:1146-1249):
the snapshot of the connection set, the writes (those to peers in `dead` fail),
and the dead-connection cleanup.  Returns the updated record and the number of
removed connections (the amount by which the engine decrements the global
counter). -/
def broadcastToSubscription (dead : List Nat) (s : Subscription) : Subscription × Nat :=
  if s.connections = [] then (s, 0)
  else
    ({ s with connections := s.connections.filter fun c => !(dead.contains c) },
     (s.connections.filter fun c => dead.contains c).length)

/-- The per-matched-filter keyword-counter increments of `BroadcastEvent`
(manager.go:1033-1039): every comma-separated term that is non-empty after
trimming is incremented. -/
def broadcastIncrements (options : FilterOptions) : List Str :=
  ((splitOnComma options.keyword).map trimStr).filter (fun t => decide (t ≠ []))

/-- `Manager.BroadcastEvent` (manager.go:1021-1050): the set of peers whose
`WriteJSON` fails during this broadcast is the parameter `dead`.  Returns the
updated manager and the list of keyword labels whose send counter was
incremented. -/
def BroadcastEvent (m : Manager) (e : ATEvent) (dead : List Nat) : Manager × List Str :=
  ({ m with
      subscriptions := m.subscriptions.map fun s =>
        if matchesFilter e s.options then (broadcastToSubscription dead s).1 else s
      totalConnections := m.totalConnections -
        ((m.subscriptions.map fun s =>
          if matchesFilter e s.options then ((broadcastToSubscription dead s).2 : Int)
          else 0)).sum },
   (m.subscriptions.filter fun s => matchesFilter e s.options).flatMap
     fun s => broadcastIncrements s.options)

/-- `Manager.Shutdown` (manager.go:1373-1400): stops the reaper (not part of the
state), empties every connection set, and resets the counter.  The subscription
table itself is not touched. -/
def Shutdown (m : Manager) : Manager :=
  { m with
      subscriptions := m.subscriptions.map fun s => { s with connections := [] }
      totalConnections := 0 }

/-- The reaper grace period (manager.go:1404), in nanoseconds. -/
def gracePeriod : Nat := 10 * 60 * 1000000000

/-- The per-record eligibility test of `performPeriodicCleanup`
(manager.go:1419-1435). -/
def shouldDeleteSub (now : Nat) (s : Subscription) : Bool :=
  s.connections.length = 0 &&
    (match s.lastConnectionAt with
     | none => decide (gracePeriod < now - s.createdAt)
     | some t => decide (gracePeriod < now - t))

/-- `Manager.performPeriodicCleanup` (manager.go:1402-1452). -/
def performPeriodicCleanup (m : Manager) (now : Nat) : Manager :=
  { m with subscriptions := m.subscriptions.filter fun s => !(shouldDeleteSub now s) }

lemma findSub_filter_of_nodup (l : List Subscription) (key : Str) (s : Subscription)
    (p : Subscription → Bool)
    (hnd : (l.map fun t => t.filterKey).Nodup)
    (hfind : l.find? (fun t => decide (t.filterKey = key)) = some s) :
    (l.filter p).find? (fun t => decide (t.filterKey = key))
      = if p s then some s else none := by
  induction l with
  | nil => simp at hfind
  | cons h rest ih =>
    simp only [List.map_cons, List.nodup_cons] at hnd
    by_cases hk : h.filterKey = key
    · rw [List.find?_cons_of_pos _ (by simp [hk])] at hfind
      injection hfind with hfind
      subst hfind
      by_cases hp : p h
      · rw [List.filter_cons_of_pos hp]
        rw [List.find?_cons_of_pos _ (by simp [hk])]
        rw [if_pos hp]
      · rw [List.filter_cons_of_neg (by simp [hp])]
        rw [if_neg hp]
        rw [List.find?_eq_none]
        intro x hx
        have hxr : x ∈ rest := List.mem_of_mem_filter hx
        simp only [decide_eq_true_eq]
        intro hxk
        exact hnd.1 (by
          rw [← hk] at hxk
          exact List.mem_map.mpr ⟨x, hxr, hxk⟩)
    · rw [List.find?_cons_of_neg _ (by simp [hk])] at hfind
      by_cases hp : p h
      · rw [List.filter_cons_of_pos hp]
        rw [List.find?_cons_of_neg _ (by simp [hk])]
        exact ih hnd.2 hfind
      · rw [List.filter_cons_of_neg (by simp [hp])]
        exact ih hnd.2 hfind

/-- Pairwise distinct filter keys, an invariant the random 32-hex key generator
maintains for the real registry. -/
def keysNodup (m : Manager) : Prop := (m.subscriptions.map fun s => s.filterKey).Nodup

/-- C6: detaching the only peer of a filter removes the filter record, so the
subsequent lookup reports NotFound; detaching a peer that is not in the
connection set changes nothing (in particular it never deletes the filter). -/
theorem RemoveConnection_last_detach (m : Manager) (key : Str) (c c2 : Nat)
    (s : Subscription) (hfind : findSub m key = some s) :
    (s.connections = [c] → GetSubscription (RemoveConnection m key c) key = none) ∧
    (s.connections.contains c2 = false → RemoveConnection m key c2 = m) := by
  constructor
  · intro hconn
    unfold RemoveConnection
    rw [hfind]
    simp only [hconn]
    rw [if_pos (by simp)]
    rw [if_pos (by simp [List.erase_cons_head])]
    unfold GetSubscription findSub
    simp only
    rw [List.find?_eq_none.mpr]
    · rfl
    · intro x hx
      have := List.of_mem_filter hx
      simp only [decide_eq_true_eq] at this ⊢
      exact this
  · intro hnc
    unfold RemoveConnection
    rw [hfind]
    have hnotmem : c2 ∉ s.connections := by simpa using hnc
    simp [hnc, hnotmem]

theorem RemoveConnection_last_detach_witness :
    GetSubscription
        (RemoveConnection
          ⟨[⟨"k".toList, ⟨[], [], "test".toList⟩, 0, some 1, [5]⟩], 1000, 1⟩
          "k".toList 5)
        "k".toList = none ∧
    RemoveConnection
        ⟨[⟨"k".toList, ⟨[], [], "test".toList⟩, 0, some 1, [5]⟩], 1000, 1⟩
        "k".toList 7
      = ⟨[⟨"k".toList, ⟨[], [], "test".toList⟩, 0, some 1, [5]⟩], 1000, 1⟩ :=
  ⟨(RemoveConnection_last_detach
      ⟨[⟨"k".toList, ⟨[], [], "test".toList⟩, 0, some 1, [5]⟩], 1000, 1⟩
      "k".toList 5 7 ⟨"k".toList, ⟨[], [], "test".toList⟩, 0, some 1, [5]⟩
      (by decide)).1 (by decide),
   (RemoveConnection_last_detach
      ⟨[⟨"k".toList, ⟨[], [], "test".toList⟩, 0, some 1, [5]⟩], 1000, 1⟩
      "k".toList 5 7 ⟨"k".toList, ⟨[], [], "test".toList⟩, 0, some 1, [5]⟩
      (by decide)).2 (by decide)⟩

instance (m : Manager) : Decidable (keysNodup m) := by
  unfold keysNodup
  infer_instance

lemma shouldDeleteSub_iff (now : Nat) (s : Subscription) :
    shouldDeleteSub now s = true ↔
      (s.connections = [] ∧
        ((s.lastConnectionAt = none ∧ gracePeriod < now - s.createdAt) ∨
         (∃ t0, s.lastConnectionAt = some t0 ∧ gracePeriod < now - t0))) := by
  unfold shouldDeleteSub
  cases h : s.lastConnectionAt with
  | none =>
    simp [h, List.length_eq_zero]
  | some t0 =>
    simp [h, List.length_eq_zero]

/-- C7: one reaper sweep at time `now` deletes a filter record exactly when it
has zero connections and either it was never attached to and its age exceeds the
ten-minute grace period, or it was last attached longer than the grace period
ago; all other records survive unchanged, and a second sweep with no intervening
mutation is a no-op. -/
theorem performPeriodicCleanup_spec (m : Manager) (now : Nat) (key : Str)
    (s : Subscription) (hnd : keysNodup m) (hfind : findSub m key = some s) :
    (findSub (performPeriodicCleanup m now) key = none ↔
      (s.connections = [] ∧
        ((s.lastConnectionAt = none ∧ gracePeriod < now - s.createdAt) ∨
         (∃ t0, s.lastConnectionAt = some t0 ∧ gracePeriod < now - t0)))) ∧
    (findSub (performPeriodicCleanup m now) key = none ∨
      findSub (performPeriodicCleanup m now) key = some s) ∧
    performPeriodicCleanup (performPeriodicCleanup m now) now
      = performPeriodicCleanup m now := by
  have hmain : findSub (performPeriodicCleanup m now) key
      = if !(shouldDeleteSub now s) then some s else none := by
    unfold performPeriodicCleanup findSub
    exact findSub_filter_of_nodup m.subscriptions key s _ hnd hfind
  refine ⟨?_, ?_, ?_⟩
  · rw [hmain, ← shouldDeleteSub_iff]
    cases hsd : shouldDeleteSub now s <;> simp [hsd]
  · rw [hmain]
    cases hsd : shouldDeleteSub now s <;> simp
  · unfold performPeriodicCleanup
    simp [List.filter_filter]

theorem performPeriodicCleanup_spec_witness :
    findSub
        (performPeriodicCleanup
          ⟨[⟨"k".toList, ⟨[], [], "test".toList⟩, 0, none, []⟩], 1000, 0⟩
          (gracePeriod + 1))
        "k".toList = none ∧
    performPeriodicCleanup
        (performPeriodicCleanup
          ⟨[⟨"k".toList, ⟨[], [], "test".toList⟩, 0, none, []⟩], 1000, 0⟩
          (gracePeriod + 1))
        (gracePeriod + 1)
      = performPeriodicCleanup
          ⟨[⟨"k".toList, ⟨[], [], "test".toList⟩, 0, none, []⟩], 1000, 0⟩
          (gracePeriod + 1) :=
  ⟨(performPeriodicCleanup_spec
      ⟨[⟨"k".toList, ⟨[], [], "test".toList⟩, 0, none, []⟩], 1000, 0⟩
      (gracePeriod + 1) "k".toList ⟨"k".toList, ⟨[], [], "test".toList⟩, 0, none, []⟩
      (by decide) (by decide)).1.mpr ⟨rfl, Or.inl ⟨rfl, by decide⟩⟩,
   (performPeriodicCleanup_spec
      ⟨[⟨"k".toList, ⟨[], [], "test".toList⟩, 0, none, []⟩], 1000, 0⟩
      (gracePeriod + 1) "k".toList ⟨"k".toList, ⟨[], [], "test".toList⟩, 0, none, []⟩
      (by decide) (by decide)).2.2⟩

/-- C9 (amended): after `Shutdown` every connection set is empty, the global
counter is zero, and a second `Shutdown` is a no-op — but the filter records
themselves remain in the registry (the table is not cleared): the surviving keys
are exactly the keys from before the call. -/
theorem Shutdown_state (m : Manager) :
    ((Shutdown m).subscriptions.all fun s => s.connections.isEmpty) = true ∧
    (Shutdown m).totalConnections = 0 ∧
    Shutdown (Shutdown m) = Shutdown m ∧
    (Shutdown m).subscriptions.map (fun s => s.filterKey)
      = m.subscriptions.map (fun s => s.filterKey) := by
  refine ⟨?_, rfl, ?_, ?_⟩
  · rw [List.all_eq_true]
    intro x hx
    unfold Shutdown at hx
    simp only [List.mem_map] at hx
    obtain ⟨a, -, ha⟩ := hx
    rw [← ha]
    rfl
  · unfold Shutdown
    simp only [List.map_map]
    congr 1
  · unfold Shutdown
    simp only [List.map_map]
    rfl

/-- C9 counterexample: `Shutdown` does not clear the registry — after shutting
down a manager holding one filter, `GetSubscriptions` still lists it and
`GetSubscription` still finds it, contradicting "no filter records remain". -/
theorem Shutdown_clears_registry_counterexample :
    GetSubscriptions
        (Shutdown (CreateFilter (mkManager 1000) "k".toList 0
          ⟨[], [], "test".toList⟩).2) ≠ [] ∧
    GetSubscription
        (Shutdown (CreateFilter (mkManager 1000) "k".toList 0
          ⟨[], [], "test".toList⟩).2) "k".toList ≠ none := by
  decide

/-- C8 (amended): the manager has no shutdown flag and no `SHUTTING_DOWN` error
path: an `Attach` issued after `Shutdown` for a key still in the registry is
admitted (the counter was reset to zero, so the cap check passes for any
positive cap) and its result code is not `SHUTTING_DOWN`. -/
theorem AddConnection_after_Shutdown (m : Manager) (key : Str) (conn now : Nat)
    (hkey : (findSub (Shutdown m) key).isSome = true)
    (hmax : 0 < m.maxConnections) :
    (AddConnectionWithResult (Shutdown m) key conn now).1.success = true ∧
    (AddConnectionWithResult (Shutdown m) key conn now).1.errorCode
      ≠ "SHUTTING_DOWN".toList := by
  obtain ⟨s, hs⟩ := Option.isSome_iff_exists.mp hkey
  have hcap : ¬ (((Shutdown m).maxConnections : Int) ≤ (Shutdown m).totalConnections) := by
    have h1 : (Shutdown m).totalConnections = 0 := rfl
    have h2 : (Shutdown m).maxConnections = m.maxConnections := rfl
    rw [h1, h2]
    exact not_le.mpr (Int.natCast_pos.mpr hmax)
  unfold AddConnectionWithResult
  rw [if_neg hcap]
  simp only [hs]
  exact ⟨trivial, by decide⟩

theorem AddConnection_after_Shutdown_witness :
    (AddConnectionWithResult
        (Shutdown (CreateFilter (mkManager 1000) "k".toList 0
          ⟨[], [], "test".toList⟩).2) "k".toList 7 3).1.success = true ∧
    (AddConnectionWithResult
        (Shutdown (CreateFilter (mkManager 1000) "k".toList 0
          ⟨[], [], "test".toList⟩).2) "k".toList 7 3).1.errorCode
      ≠ "SHUTTING_DOWN".toList :=
  AddConnection_after_Shutdown
    (CreateFilter (mkManager 1000) "k".toList 0 ⟨[], [], "test".toList⟩).2
    "k".toList 7 3 (by decide) (by decide)

/-- C8 counterexample: after `Shutdown`, an `Attach` for a filter key still in
the registry succeeds, increments the counter, and carries no `SHUTTING_DOWN`
code — the claim that every subsequent attach is rejected with `SHUTTING_DOWN`
is false. -/
theorem Attach_rejected_after_shutdown_counterexample :
    (AddConnectionWithResult
        (Shutdown (CreateFilter (mkManager 1000) "feed".toList 0
          ⟨[], [], "cats".toList⟩).2) "feed".toList 7 3).1
      = ⟨true, [], []⟩ ∧
    (AddConnectionWithResult
        (Shutdown (CreateFilter (mkManager 1000) "feed".toList 0
          ⟨[], [], "cats".toList⟩).2) "feed".toList 7 3).2.totalConnections = 1 := by
  decide

/-- First-occurrence deduplication, preserving order. -/
def dedupKeep (l : List Str) : List Str :=
  l.foldl (fun acc t => if t ∈ acc then acc else acc ++ [t]) []

/-- Modelled from the spec: the function `MatchingTerms` (the repository's tests
call it `getMatchingKeywords`) is absent from the sources — only its tests
remain.  Per the spec it returns every keyword term that produced a
case-insensitive substring hit against some op's extractable text, without
duplicates, in the order of the filter's keyword list. -/
def MatchingTerms (e : ATEvent) (keywords : Str) : List Str :=
  dedupKeep ((keywordTerms keywords).filter
    (fun t => e.ops.any fun op =>
      containsL (toLowerStr (extractText op.record)) (toLowerStr t)))

/-- The concrete delivering configuration for the keyword-metric counterexample:
one filter on `"cats, dogs"` with one attached peer. -/
def mgrC3 : Manager :=
  (AddConnectionWithResult
    (CreateFilter (mkManager 1000) "k".toList 0 ⟨[], [], "cats, dogs".toList⟩).2
    "k".toList 0 1).2

/-- The concrete event for the keyword-metric counterexample: its text hits
`"dogs"` but not `"cats"`. -/
def evC3 : ATEvent :=
  ⟨"commit".toList, "did:plc:abc".toList, [], "commit".toList,
    [⟨"create".toList, "app.bsky.feed.post/1".toList, [], [],
      .content "my DOGS are great".toList [] []⟩]⟩

/-- C3 counterexample: the broadcast loop increments the send counter for every
non-empty trimmed term of a matched filter's keyword list — here both `cats` and
`dogs` — although only `dogs` produced a hit, so the incremented set differs
from `MatchingTerms`. -/
theorem keyword_metric_counterexample :
    (BroadcastEvent mgrC3 evC3 []).2 = ["cats".toList, "dogs".toList] ∧
    MatchingTerms evC3 "cats, dogs".toList = ["dogs".toList] ∧
    "cats".toList ∈ (BroadcastEvent mgrC3 evC3 []).2 ∧
    "cats".toList ∉ MatchingTerms evC3 "cats, dogs".toList ∧
    (GetSubscription mgrC3 "k".toList).map (fun v => v.connections) = some 1 ∧
    matchesFilter evC3 ⟨[], [], "cats, dogs".toList⟩ = true := by
  decide

/-- C3 (amended): during a broadcast the set of keyword labels whose send
counter is incremented consists of every non-empty whitespace-trimmed term of
every matched filter's comma-separated keyword list — not only the terms that
produced a hit (and the increments happen even when the matched filter has no
connections, i.e. without an actual delivery). -/
theorem broadcast_increments_iff (m : Manager) (e : ATEvent) (dead : List Nat) (t : Str) :
    t ∈ (BroadcastEvent m e dead).2 ↔
      ∃ s ∈ m.subscriptions, matchesFilter e s.options = true ∧
        t ∈ broadcastIncrements s.options := by
  unfold BroadcastEvent
  simp only [List.mem_flatMap, List.mem_filter]
  constructor
  · rintro ⟨s, ⟨hmem, hmatch⟩, ht⟩
    exact ⟨s, hmem, hmatch, ht⟩
  · rintro ⟨s, hmem, hmatch, ht⟩
    exact ⟨s, ⟨hmem, hmatch⟩, ht⟩

/-- The sum of the connection-set sizes over all live filter records. -/
def connSum (m : Manager) : Nat :=
  (m.subscriptions.map fun s => s.connections.length).sum

/-- The registry invariant I-R1: the global connection counter equals the sum of
the connection-set sizes over all live filter records. -/
def registryInvariant (m : Manager) : Prop := m.totalConnections = (connSum m : Int)

instance (m : Manager) : Decidable (registryInvariant m) := by
  unfold registryInvariant
  infer_instance

/-- The operations of the engine, for reasoning about operation sequences.  The
`broadcast` payload carries the set of peers whose writes fail during that
broadcast. -/
inductive MOp where
  | create (key : Str) (now : Nat) (options : FilterOptions)
  | attach (key : Str) (conn : Nat) (now : Nat)
  | detach (key : Str) (conn : Nat)
  | broadcast (e : ATEvent) (dead : List Nat)
  | sweep (now : Nat)
  | shutdown

def applyOp (m : Manager) : MOp → Manager
  | .create key now options => (CreateFilter m key now options).2
  | .attach key conn now => (AddConnectionWithResult m key conn now).2
  | .detach key conn => RemoveConnection m key conn
  | .broadcast e dead => (BroadcastEvent m e dead).1
  | .sweep now => performPeriodicCleanup m now
  | .shutdown => Shutdown m

def runOps : Manager → List MOp → Manager
  | m, [] => m
  | m, op :: rest => runOps (applyOp m op) rest

/-- The side conditions the real system guarantees for an operation: a created
filter key is fresh (the generator is collision-resistant) and an attached peer
handle is not already in the target filter's connection set (each websocket
connection object is attached once). -/
def goodOp (m : Manager) : MOp → Bool
  | .create key _ _ => (findSub m key).isNone
  | .attach key conn _ =>
    match findSub m key with
    | some s => !(s.connections.contains conn)
    | none => true
  | _ => true

def goodTrace : Manager → List MOp → Bool
  | _, [] => true
  | m, op :: rest => goodOp m op && goodTrace (applyOp m op) rest

lemma updateSub_cons (h : Subscription) (t : List Subscription) (key : Str)
    (s2 : Subscription) :
    updateSub (h :: t) key s2
      = (if h.filterKey = key then s2 else h) :: updateSub t key s2 := rfl

lemma length_filter_split (l : List Nat) (p : Nat → Bool) :
    (l.filter p).length + (l.filter fun c => !(p c)).length = l.length := by
  induction l with
  | nil => rfl
  | cons h t ih =>
    by_cases hp : p h <;> simp [hp, List.filter_cons] <;> omega

lemma broadcastToSubscription_len (dead : List Nat) (s : Subscription) :
    (broadcastToSubscription dead s).1.connections.length
      + (broadcastToSubscription dead s).2 = s.connections.length := by
  unfold broadcastToSubscription
  by_cases h : s.connections = []
  · simp [h]
  · rw [if_neg h]
    have := length_filter_split s.connections (fun c => dead.contains c)
    simp only
    omega

lemma broadcastToSubscription_key (dead : List Nat) (s : Subscription) :
    (broadcastToSubscription dead s).1.filterKey = s.filterKey := by
  unfold broadcastToSubscription
  by_cases h : s.connections = [] <;> simp [h]

lemma connSum_updateSub (l : List Subscription) (key : Str) (s s2 : Subscription)
    (hnd : (l.map fun t => t.filterKey).Nodup)
    (hfind : l.find? (fun t => decide (t.filterKey = key)) = some s) :
    ((updateSub l key s2).map fun t => t.connections.length).sum + s.connections.length
      = (l.map fun t => t.connections.length).sum + s2.connections.length := by
  induction l with
  | nil => simp at hfind
  | cons h rest ih =>
    simp only [List.map_cons, List.nodup_cons] at hnd
    rw [updateSub_cons]
    by_cases hk : h.filterKey = key
    · rw [List.find?_cons_of_pos _ (by simp [hk])] at hfind
      injection hfind with heq
      subst heq
      have hrest : updateSub rest key s2 = rest := by
        have : ∀ t ∈ rest, (if t.filterKey = key then s2 else t) = t := by
          intro t htmem
          rw [if_neg]
          intro hteq
          exact hnd.1 (List.mem_map.mpr ⟨t, htmem, hteq.trans hk.symm⟩)
        unfold updateSub
        rw [List.map_congr_left this]
        exact List.map_id' rest
      rw [hrest, if_pos hk]
      simp only [List.map_cons, List.sum_cons]
      omega
    · rw [List.find?_cons_of_neg _ (by simp [hk])] at hfind
      rw [if_neg hk]
      simp only [List.map_cons, List.sum_cons]
      have := ih hnd.2 hfind
      omega

lemma connSum_filter_out (l : List Subscription) (key : Str) (s : Subscription)
    (hnd : (l.map fun t => t.filterKey).Nodup)
    (hfind : l.find? (fun t => decide (t.filterKey = key)) = some s) :
    ((l.filter fun t => decide (t.filterKey ≠ key)).map fun t => t.connections.length).sum
      + s.connections.length
      = (l.map fun t => t.connections.length).sum := by
  induction l with
  | nil => simp at hfind
  | cons h rest ih =>
    simp only [List.map_cons, List.nodup_cons] at hnd
    by_cases hk : h.filterKey = key
    · rw [List.find?_cons_of_pos _ (by simp [hk])] at hfind
      injection hfind with heq
      subst heq
      rw [List.filter_cons_of_neg (by simp [hk])]
      have hrest : rest.filter (fun t => decide (t.filterKey ≠ key)) = rest := by
        rw [List.filter_eq_self]
        intro t htmem
        simp only [decide_eq_true_eq]
        intro hteq
        exact hnd.1 (List.mem_map.mpr ⟨t, htmem, hteq.trans hk.symm⟩)
      rw [hrest]
      simp only [List.map_cons, List.sum_cons]
      omega
    · rw [List.find?_cons_of_neg _ (by simp [hk])] at hfind
      rw [List.filter_cons_of_pos (by simp [hk])]
      simp only [List.map_cons, List.sum_cons]
      have := ih hnd.2 hfind
      omega

lemma broadcast_sum_split (e : ATEvent) (dead : List Nat) (l : List Subscription) :
    ((l.map fun s =>
        if matchesFilter e s.options then (broadcastToSubscription dead s).1 else s).map
          fun t => t.connections.length).sum
      + (l.map fun s =>
          if matchesFilter e s.options then (broadcastToSubscription dead s).2 else 0).sum
      = (l.map fun t => t.connections.length).sum := by
  induction l with
  | nil => rfl
  | cons h rest ih =>
    simp only [List.map_cons, List.sum_cons]
    cases hm : matchesFilter e h.options
    · simp only [hm, Bool.false_eq_true, if_false]
      omega
    · simp only [hm, if_true]
      have hb := broadcastToSubscription_len dead h
      omega

lemma broadcast_removed_int (e : ATEvent) (dead : List Nat) (l : List Subscription) :
    (l.map fun s => if matchesFilter e s.options
        then ((broadcastToSubscription dead s).2 : Int) else 0).sum
      = (((l.map fun s => if matchesFilter e s.options
          then (broadcastToSubscription dead s).2 else 0).sum : Nat) : Int) := by
  induction l with
  | nil => rfl
  | cons h rest ih =>
    simp only [List.map_cons, List.sum_cons]
    cases hm : matchesFilter e h.options
    · simp only [hm, Bool.false_eq_true, if_false]
      simpa using ih
    · simp only [hm, if_true]
      rw [Nat.cast_add, ih]

lemma keysNodup_putSub (l : List Subscription) (s2 : Subscription)
    (hnd : (l.map fun t => t.filterKey).Nodup) :
    ((putSub l s2).map fun t => t.filterKey).Nodup := by
  unfold putSub
  rw [List.map_append]
  apply List.Nodup.append
  · exact List.Nodup.sublist
      (List.Sublist.map _ (List.filter_sublist l)) hnd
  · simp
  · intro a ha
    simp only [List.mem_map] at ha
    obtain ⟨t, htmem, rfl⟩ := ha
    have := List.of_mem_filter htmem
    simp only [decide_eq_true_eq] at this
    simp only [List.map_cons, List.map_nil, List.mem_singleton]
    exact this

lemma keys_updateSub (l : List Subscription) (key : Str) (s2 : Subscription)
    (hs2 : s2.filterKey = key) :
    (updateSub l key s2).map (fun t => t.filterKey) = l.map fun t => t.filterKey := by
  unfold updateSub
  rw [List.map_map]
  apply List.map_congr_left
  intro t _
  by_cases hk : t.filterKey = key
  · simp [hk, hs2]
  · simp [hk]

lemma keys_broadcast (e : ATEvent) (dead : List Nat) (l : List Subscription) :
    ((l.map fun s =>
        if matchesFilter e s.options then (broadcastToSubscription dead s).1 else s).map
      fun t => t.filterKey) = l.map fun t => t.filterKey := by
  rw [List.map_map]
  apply List.map_congr_left
  intro t _
  cases hm : matchesFilter e t.options <;>
    simp [hm, broadcastToSubscription_key]

lemma connSum_shutdown (l : List Subscription) :
    ((l.map fun s => { s with connections := ([] : List Nat) }).map
      fun t => t.connections.length).sum = 0 := by
  rw [List.map_map]
  apply List.sum_eq_zero
  intro x hx
  simp only [List.mem_map, Function.comp] at hx
  obtain ⟨a, -, rfl⟩ := hx
  rfl

lemma shouldDeleteSub_len {now : Nat} {s : Subscription}
    (h : shouldDeleteSub now s = true) : s.connections.length = 0 := by
  unfold shouldDeleteSub at h
  rw [Bool.and_eq_true] at h
  simpa using h.1

lemma connSum_cleanup (now : Nat) (l : List Subscription) :
    ((l.filter fun s => !(shouldDeleteSub now s)).map
      fun t => t.connections.length).sum
      = (l.map fun t => t.connections.length).sum := by
  induction l with
  | nil => rfl
  | cons h rest ih =>
    cases hd : shouldDeleteSub now h
    · rw [List.filter_cons_of_pos (by simp [hd])]
      simp only [List.map_cons, List.sum_cons, ih]
    · rw [List.filter_cons_of_neg (by simp [hd])]
      simp only [List.map_cons, List.sum_cons, ih]
      have := shouldDeleteSub_len hd
      omega

lemma filter_ne_key_of_none (l : List Subscription) (key : Str)
    (h : l.find? (fun t => decide (t.filterKey = key)) = none) :
    l.filter (fun t => decide (t.filterKey ≠ key)) = l := by
  rw [List.filter_eq_self]
  intro a ha
  have := List.find?_eq_none.mp h a ha
  simpa using this

lemma keysNodup_filter (l : List Subscription) (p : Subscription → Bool)
    (hnd : (l.map fun t => t.filterKey).Nodup) :
    ((l.filter p).map fun t => t.filterKey).Nodup :=
  List.Nodup.sublist (List.Sublist.map _ (List.filter_sublist l)) hnd

lemma step_preserves (m : Manager) (op : MOp)
    (hnd : keysNodup m) (hinv : registryInvariant m) (hg : goodOp m op = true) :
    keysNodup (applyOp m op) ∧ registryInvariant (applyOp m op) := by
  cases op with
  | create key now options =>
    simp only [applyOp, goodOp] at hg ⊢
    unfold CreateFilter
    by_cases hk : options.keyword = []
    · rw [if_pos hk]
      exact ⟨hnd, hinv⟩
    rw [if_neg hk]
    by_cases hv : (validateFilterContent options).isSome
    · rw [if_pos hv]
      exact ⟨hnd, hinv⟩
    rw [if_neg hv]
    have hfresh : m.subscriptions.find? (fun t => decide (t.filterKey = key)) = none :=
      Option.isNone_iff_eq_none.mp hg
    constructor
    · exact keysNodup_putSub _ _ hnd
    · unfold registryInvariant connSum at hinv ⊢
      simp only
      unfold putSub
      rw [filter_ne_key_of_none _ _ hfresh, List.map_append, List.sum_append]
      simpa using hinv
  | attach key conn now =>
    simp only [applyOp, goodOp] at hg ⊢
    unfold AddConnectionWithResult
    by_cases hcap : (m.maxConnections : Int) ≤ m.totalConnections
    · rw [if_pos hcap]
      exact ⟨hnd, hinv⟩
    rw [if_neg hcap]
    cases hfind : findSub m key with
    | none =>
      simp only [hfind]
      exact ⟨hnd, hinv⟩
    | some s =>
      simp only [hfind]
      simp only [hfind] at hg
      have hc : s.connections.contains conn = false := by simpa using hg
      have hnotmem : conn ∉ s.connections := by simpa using hc
      have hkeyeq : s.filterKey = key := by simpa using List.find?_some hfind
      constructor
      · unfold keysNodup at hnd ⊢
        simp only
        rw [keys_updateSub m.subscriptions key
          { s with
              connections := if s.connections.contains conn then s.connections
                else s.connections ++ [conn]
              lastConnectionAt := some now } hkeyeq]
        exact hnd
      · unfold registryInvariant connSum at hinv ⊢
        simp only
        have hup := connSum_updateSub m.subscriptions key s
          { s with
              connections := if s.connections.contains conn then s.connections
                else s.connections ++ [conn]
              lastConnectionAt := some now } hnd hfind
        have hs2len :
            ({ s with
                connections := if s.connections.contains conn then s.connections
                  else s.connections ++ [conn]
                lastConnectionAt := some now } : Subscription).connections.length
              = s.connections.length + 1 := by
          simp [hnotmem]
        omega
  | detach key conn =>
    simp only [applyOp]
    unfold RemoveConnection
    cases hfind : findSub m key with
    | none =>
      simp only [hfind]
      exact ⟨hnd, hinv⟩
    | some s =>
      simp only [hfind]
      have hkeyeq : s.filterKey = key := by simpa using List.find?_some hfind
      by_cases hc : s.connections.contains conn = true
      · have hmem : conn ∈ s.connections := by simpa using hc
        have hpos : 0 < s.connections.length := List.length_pos_of_mem hmem
        have herase : (s.connections.erase conn).length + 1 = s.connections.length := by
          rw [List.length_erase_of_mem hmem]
          omega
        rw [if_pos hc]
        by_cases hz : (s.connections.erase conn).length = 0
        · rw [if_pos hz]
          constructor
          · exact keysNodup_filter _ _ hnd
          · unfold registryInvariant connSum at hinv ⊢
            simp only
            have hout := connSum_filter_out m.subscriptions key s hnd hfind
            omega
        · rw [if_neg hz]
          constructor
          · unfold keysNodup at hnd ⊢
            simp only
            rw [keys_updateSub m.subscriptions key
              { s with connections := s.connections.erase conn } hkeyeq]
            exact hnd
          · unfold registryInvariant connSum at hinv ⊢
            simp only
            have hup := connSum_updateSub m.subscriptions key s
              { s with connections := s.connections.erase conn } hnd hfind
            have hs2len :
                ({ s with connections := s.connections.erase conn } :
                  Subscription).connections.length
                  = s.connections.length - 1 := List.length_erase_of_mem hmem
            omega
      · rw [if_neg hc]
        exact ⟨hnd, hinv⟩
  | broadcast e dead =>
    simp only [applyOp]
    unfold BroadcastEvent
    constructor
    · unfold keysNodup at hnd ⊢
      simp only
      rw [keys_broadcast]
      exact hnd
    · unfold registryInvariant connSum at hinv ⊢
      simp only
      have h1 := broadcast_sum_split e dead m.subscriptions
      have h2 := broadcast_removed_int e dead m.subscriptions
      omega
  | sweep now =>
    simp only [applyOp]
    unfold performPeriodicCleanup
    constructor
    · exact keysNodup_filter _ _ hnd
    · unfold registryInvariant connSum at hinv ⊢
      simp only
      rw [connSum_cleanup]
      exact hinv
  | shutdown =>
    simp only [applyOp]
    unfold Shutdown
    constructor
    · unfold keysNodup at hnd ⊢
      simp only
      rw [List.map_map]
      have : ∀ t ∈ m.subscriptions,
          ((fun t => t.filterKey) ∘ fun s => { s with connections := ([] : List Nat) }) t
            = t.filterKey := fun t _ => rfl
      rw [List.map_congr_left this]
      exact hnd
    · unfold registryInvariant connSum
      simp only
      rw [connSum_shutdown]
      rfl

lemma runOps_preserves (ops : List MOp) (m : Manager)
    (hnd : keysNodup m) (hinv : registryInvariant m) (hg : goodTrace m ops = true) :
    keysNodup (runOps m ops) ∧ registryInvariant (runOps m ops) := by
  induction ops generalizing m with
  | nil => exact ⟨hnd, hinv⟩
  | cons op rest ih =>
    simp only [goodTrace, Bool.and_eq_true] at hg
    have hstep := step_preserves m op hnd hinv hg.1
    exact ih (applyOp m op) hstep.1 hstep.2 hg.2

/-- C4 (amended): starting from a fresh manager, every sequence of completed
operations — CreateFilter with a fresh key, Attach with a peer not already in
the target filter's connection set, Detach, Broadcast including its dead-peer
cleanup, reaper sweep, and Shutdown — preserves I-R1: the global connection
counter equals the sum of the connection-set sizes over all live filter
records at every quiescent point. -/
theorem registry_counter_invariant (maxConns : Nat) (ops : List MOp)
    (hg : goodTrace (mkManager maxConns) ops = true) :
    registryInvariant (runOps (mkManager maxConns) ops) :=
  (runOps_preserves ops (mkManager maxConns)
    (by simp [keysNodup, mkManager])
    (by simp [registryInvariant, connSum, mkManager]) hg).2

theorem registry_counter_invariant_witness :
    registryInvariant (runOps (mkManager 10)
      [MOp.create "k".toList 0 ⟨[], [], "test".toList⟩,
       MOp.attach "k".toList 0 1,
       MOp.attach "k".toList 1 2,
       MOp.broadcast
         ⟨"commit".toList, "did:plc:abc".toList, [], "commit".toList,
           [⟨"create".toList, "app.bsky.feed.post/1".toList, [], [],
             ATRecord.content "a test here".toList [] []⟩]⟩ [0],
       MOp.detach "k".toList 1,
       MOp.sweep (gracePeriod + 5),
       MOp.shutdown]) :=
  registry_counter_invariant 10
    [MOp.create "k".toList 0 ⟨[], [], "test".toList⟩,
     MOp.attach "k".toList 0 1,
     MOp.attach "k".toList 1 2,
     MOp.broadcast
       ⟨"commit".toList, "did:plc:abc".toList, [], "commit".toList,
         [⟨"create".toList, "app.bsky.feed.post/1".toList, [], [],
           ATRecord.content "a test here".toList [] []⟩]⟩ [0],
     MOp.detach "k".toList 1,
     MOp.sweep (gracePeriod + 5),
     MOp.shutdown] (by decide)

/-- C4 counterexample: attaching the same peer handle twice to the same filter
is a sequence of completed operations after which the counter (2) differs from
the summed connection-set sizes (1): the Go map insert is idempotent but
`totalConnections++` is executed unconditionally, so the claim as stated — the
equality holds after any sequence of completed operations — is false. -/
theorem registry_counter_invariant_counterexample :
    goodTrace (mkManager 10)
        [MOp.create "k".toList 0 ⟨[], [], "test".toList⟩,
         MOp.attach "k".toList 0 1] = true ∧
    ¬ registryInvariant (runOps (mkManager 10)
        [MOp.create "k".toList 0 ⟨[], [], "test".toList⟩,
         MOp.attach "k".toList 0 1,
         MOp.attach "k".toList 0 2]) := by
  decide

lemma cap_step (m : Manager) (op : MOp)
    (h : m.totalConnections ≤ (m.maxConnections : Int)) :
    (applyOp m op).totalConnections ≤ ((applyOp m op).maxConnections : Int) ∧
    (applyOp m op).maxConnections = m.maxConnections := by
  cases op with
  | create key now options =>
    simp only [applyOp]
    unfold CreateFilter
    by_cases hk : options.keyword = []
    · rw [if_pos hk]
      exact ⟨h, rfl⟩
    rw [if_neg hk]
    by_cases hv : (validateFilterContent options).isSome
    · rw [if_pos hv]
      exact ⟨h, rfl⟩
    · rw [if_neg hv]
      exact ⟨h, rfl⟩
  | attach key conn now =>
    simp only [applyOp]
    unfold AddConnectionWithResult
    by_cases hcap : (m.maxConnections : Int) ≤ m.totalConnections
    · rw [if_pos hcap]
      exact ⟨h, rfl⟩
    rw [if_neg hcap]
    cases hfind : findSub m key with
    | none =>
      simp only [hfind]
      exact ⟨h, trivial⟩
    | some s =>
      simp only [hfind]
      refine ⟨?_, trivial⟩
      omega
  | detach key conn =>
    simp only [applyOp]
    unfold RemoveConnection
    cases hfind : findSub m key with
    | none =>
      simp only [hfind]
      exact ⟨h, trivial⟩
    | some s =>
      simp only [hfind]
      by_cases hc : s.connections.contains conn = true
      · rw [if_pos hc]
        by_cases hz : (s.connections.erase conn).length = 0
        · rw [if_pos hz]
          exact ⟨by simp only; omega, rfl⟩
        · rw [if_neg hz]
          exact ⟨by simp only; omega, rfl⟩
      · rw [if_neg hc]
        exact ⟨h, rfl⟩
  | broadcast e dead =>
    simp only [applyOp]
    unfold BroadcastEvent
    refine ⟨?_, rfl⟩
    simp only
    have hnn : 0 ≤ (m.subscriptions.map fun s => if matchesFilter e s.options
        then ((broadcastToSubscription dead s).2 : Int) else 0).sum := by
      apply List.sum_nonneg
      intro x hx
      simp only [List.mem_map] at hx
      obtain ⟨a, -, rfl⟩ := hx
      cases hm : matchesFilter e a.options <;> simp [hm]
    omega
  | sweep now =>
    simp only [applyOp]
    unfold performPeriodicCleanup
    exact ⟨h, rfl⟩
  | shutdown =>
    simp only [applyOp]
    unfold Shutdown
    refine ⟨?_, rfl⟩
    simp only
    exact Int.natCast_nonneg _

lemma runOps_cap (ops : List MOp) (m : Manager)
    (h : m.totalConnections ≤ (m.maxConnections : Int)) :
    (runOps m ops).totalConnections ≤ ((runOps m ops).maxConnections : Int) ∧
    (runOps m ops).maxConnections = m.maxConnections := by
  induction ops generalizing m with
  | nil => exact ⟨h, rfl⟩
  | cons op rest ih =>
    have hstep := cap_step m op h
    have hrest := ih (applyOp m op) hstep.1
    exact ⟨hrest.1, hrest.2.trans hstep.2⟩

/-- C5: with a positive configured cap, `totalConnections` never exceeds
`maxConnections` over any sequence of operations from a fresh manager, and an
`Attach` issued when the counter has reached the cap is rejected with the
result code `MAX_CONNECTIONS_REACHED` (the check happens before the counter is
incremented, under the registry write guard). -/
theorem cap_never_exceeded (maxConns : Nat) (ops : List MOp) (key : Str)
    (conn now : Nat) (hpos : 0 < maxConns) :
    (runOps (mkManager maxConns) ops).totalConnections ≤ (maxConns : Int) ∧
    ((runOps (mkManager maxConns) ops).totalConnections = (maxConns : Int) →
      (AddConnectionWithResult (runOps (mkManager maxConns) ops) key conn now).1.errorCode
        = "MAX_CONNECTIONS_REACHED".toList) := by
  have hrun := runOps_cap ops (mkManager maxConns) (by simp [mkManager])
  constructor
  · have hle := hrun.1
    rw [hrun.2] at hle
    exact hle
  · intro heq
    have hmx : (runOps (mkManager maxConns) ops).maxConnections = maxConns := hrun.2
    have hle : ((runOps (mkManager maxConns) ops).maxConnections : Int)
        ≤ (runOps (mkManager maxConns) ops).totalConnections := by
      rw [hmx, heq]
    unfold AddConnectionWithResult
    rw [if_pos hle]

theorem cap_never_exceeded_witness :
    (runOps (mkManager 1)
        [MOp.create "k".toList 0 ⟨[], [], "test".toList⟩,
         MOp.attach "k".toList 0 1]).totalConnections ≤ (1 : Int) ∧
    (AddConnectionWithResult
        (runOps (mkManager 1)
          [MOp.create "k".toList 0 ⟨[], [], "test".toList⟩,
           MOp.attach "k".toList 0 1]) "k".toList 5 9).1.errorCode
      = "MAX_CONNECTIONS_REACHED".toList :=
  ⟨(cap_never_exceeded 1
      [MOp.create "k".toList 0 ⟨[], [], "test".toList⟩,
       MOp.attach "k".toList 0 1] "k".toList 5 9 (by decide)).1,
   (cap_never_exceeded 1
      [MOp.create "k".toList 0 ⟨[], [], "test".toList⟩,
       MOp.attach "k".toList 0 1] "k".toList 5 9 (by decide)).2 (by decide)⟩
